import Mathlib

/-!
Verification development for the Azure IoT Models Repository resolver core
(`sdk/iot/modelsrepository`): the dependency pseudo-parser (`psuedoParser.ts`,
plus the earlier draft of the same class kept in the repository), the client
facade (`modelsRepositoryClient.ts`), and — modelled from the spec, since their
sources are not part of this snapshot — the DTMI addressing convention and the
`DtmiResolver`.

Conventions of the embedding:
* JavaScript exceptions become `Except JsErr`; the `RestError` class (thrown by
  the HTTP pipeline, e.g. on 404) is the `restError` constructor, every other
  thrown value is `jsError`.
* A JavaScript object used as a dictionary becomes an insertion-ordered
  association list (`ModelMap`); property assignment overwrites in place.
* `async`/`Promise.all` concurrency is sequentialised: sibling expansions are
  folded left-to-right over the shared map, which produces the same map because
  writes are keyed by DTMI.
* General recursion is given explicit fuel; exhausting the fuel yields an
  error, so `.ok` results are exactly the runs the JavaScript code completes.
-/

/-- Errors a call can reject with. `restError` models the `RestError` class of
the Azure core HTTP pipeline (carrying the HTTP status code, e.g. 404 for a
document that is absent from a remote repository); `jsError` models every other
thrown value (plain `Error`, `EvalError`, type errors, ...). -/
inductive JsErr where
  | restError : Nat → JsErr
  | jsError : String → JsErr
deriving DecidableEq, Repr

/-- The `e instanceof RestError` test used by the catch blocks. -/
def JsErr.isRest : JsErr → Bool
  | .restError _ => true
  | .jsError _ => false

/-- One element of a model's `contents` array. The source only ever reads
`element["@type"]` and `element.schema` and only when they are strings, so a
field that is absent or not a string is embedded as `none`. -/
structure Content where
  atype : Option String
  schema : Option String
deriving DecidableEq, Repr

mutual
/-- A DTDL model document, as read by the pseudo-parser: the `"@id"` member
(absent is `none`), the `contents` array, and the `extends` member. -/
inductive DTDL where
  | mk : Option String → Option (List Content) → Option ExtendsVal → DTDL

/-- The value of an `extends` member: a single DTMI string, a single inline
object, or an array of strings and inline objects. -/
inductive ExtendsVal where
  | str : String → ExtendsVal
  | obj : DTDL → ExtendsVal
  | arr : List ExtendsEntry → ExtendsVal

/-- One element of an `extends` array. -/
inductive ExtendsEntry where
  | str : String → ExtendsEntry
  | obj : DTDL → ExtendsEntry
end

/-- The `model["@id"]` accessor. -/
def DTDL.id : DTDL → Option String
  | .mk i _ _ => i

/-- The `model.contents` accessor. -/
def DTDL.contents : DTDL → Option (List Content)
  | .mk _ c _ => c

/-- The `model.extends` accessor (`extends` is a Lean keyword, hence `ext`). -/
def DTDL.ext : DTDL → Option ExtendsVal
  | .mk _ _ e => e

/-- A value stored in the JavaScript `dependencies` array of
`_getModelDependencies`. Because the source pushes the result of the recursive
call without spreading it (`dependencies.push(this._getModelDependencies(element))`),
the array is heterogeneous: it holds strings and nested arrays. -/
inductive Dep where
  | str : String → Dep
  | lst : List Dep → Dep

mutual
/-- Coercion of a `dependencies` entry to a JavaScript property key, as
performed by `dependency in modelMap`: a string is itself, an array stringifies
to its comma-joined elements. -/
def Dep.toKey : Dep → String
  | .str s => s
  | .lst l => Dep.keyList l

/-- Comma-joining used by the stringification of a JavaScript array. -/
def Dep.keyList : List Dep → String
  | [] => ""
  | [d] => Dep.toKey d
  | d :: rest => Dep.toKey d ++ "," ++ Dep.keyList rest
end

/-- Deduplication performed by `Array.from(new Set(dependencies))`: a JS `Set`
compares by SameValueZero, so duplicate strings collapse (first occurrence
kept, insertion order preserved) while arrays — each a fresh reference — are
all kept, equal contents or not. `seen` accumulates the string values met so
far. -/
def dedupDeps (seen : List String) : List Dep → List Dep
  | [] => []
  | .str s :: rest =>
      if s ∈ seen then dedupDeps seen rest
      else .str s :: dedupDeps (s :: seen) rest
  | .lst l :: rest => .lst l :: dedupDeps seen rest

/-- The `contents` loop of `_getModelDependencies`: for every element whose
`"@type"` is the string `"Component"` and whose `schema` is a truthy string
(the empty string is falsy in JavaScript), push the schema. -/
def contentDeps : List Content → List Dep
  | [] => []
  | el :: rest =>
      if el.atype == some "Component" then
        match el.schema with
        | some s => if s == "" then contentDeps rest else .str s :: contentDeps rest
        | none => contentDeps rest
      else contentDeps rest

mutual
/-- The `_getModelDependencies` method of `PseudoParser` (identical in the two
copies of the class in the repository): collect Component schemas from
`contents`, then entries of `extends` — a string `extends` is pushed, an array
is walked, a single inline object matches neither `typeof ... === "string"`
nor `Array.isArray` and contributes nothing — and finally deduplicate via
`Array.from(new Set(...))`. -/
def getModelDependencies : DTDL → List Dep
  | .mk _ c e => dedupDeps [] (contentDeps (c.getD []) ++ extDeps e)

/-- The `extends` branch of `_getModelDependencies`. -/
def extDeps : Option ExtendsVal → List Dep
  | none => []
  | some (.str s) => [Dep.str s]
  | some (.obj _) => []
  | some (.arr l) => entriesDeps l

/-- The `model.extends.forEach` loop: a string element is pushed as an edge, an
object element has its own dependency list computed recursively and pushed as
a single (nested-array) entry — the source writes `dependencies.push(...)`,
not a spread. -/
def entriesDeps : List ExtendsEntry → List Dep
  | [] => []
  | .str s :: rest => Dep.str s :: entriesDeps rest
  | .obj d :: rest => Dep.lst (getModelDependencies d) :: entriesDeps rest
end

/-- A JavaScript object used as a DTMI-keyed dictionary: an insertion-ordered
association list with unique keys. -/
abbrev ModelMap := List (String × DTDL)

/-- The `key in map` test. -/
def mapHas (m : ModelMap) (k : String) : Bool :=
  m.any (fun p => p.1 == k)

/-- Property assignment `map[key] = value`: overwrite in place if the key
exists, otherwise append (JavaScript keeps the original insertion position of
an overwritten key). -/
def mapSet (m : ModelMap) (k : String) (v : DTDL) : ModelMap :=
  if mapHas m k then m.map (fun p => if p.1 == k then (k, v) else p)
  else m ++ [(k, v)]

/-- The keys of a map, in insertion order (`Object.keys`). -/
def mapKeys (m : ModelMap) : List String :=
  m.map (fun p => p.1)

/-- Lookup of a key's value. -/
def mapGet (m : ModelMap) (k : String) : Option DTDL :=
  (m.find? (fun p => p.1 == k)).map (fun p => p.2)

/-- Merging `resolvedDependenciesMap` into a map key by key, in key order
(`Object.keys(...).forEach((key) => { modelMap[key] = ... })`). -/
def mapMerge (m : ModelMap) (extra : ModelMap) : ModelMap :=
  extra.foldl (fun acc p => mapSet acc p.1 p.2) m

/-- The resolution collaborator as seen by the pseudo-parser: the argument
array of DTMIs and the `tryFromExpanded` flag, yielding a DTMI-keyed map of
resolved models or a thrown error. The expander hands over the raw values of
its `dependencies` array — which, because of the un-spread push, can contain
nested arrays, hence `List Dep` rather than `List String`. -/
abbrev Resolver := List Dep → Bool → Except JsErr ModelMap

/-- Sequentialised `Promise.all(promiseList)`: run the (recursive) expansion
`recur` on each value of a freshly resolved map in order, threading the shared
model map, stopping at the first error. -/
def runList (recur : DTDL → ModelMap → Except JsErr ModelMap) :
    ModelMap → ModelMap → Except JsErr ModelMap
  | [], modelMap => .ok modelMap
  | p :: rest, modelMap =>
      match recur p.2 modelMap with
      | .error e => .error e
      | .ok modelMap2 => runList recur rest modelMap2

/-- The body of the private `_expand` method of `PseudoParser` (sdk copy),
with the recursive self-call abstracted as `recur`: compute the dependency
list, keep the entries whose key is not yet in the map, and if any remain
resolve them — catching a `RestError` and retrying the same batch with
`tryFromExpanded = false`, rethrowing anything else — then merge the resolved
map key by key and recurse into every resolved model. -/
def expandStep (res : Resolver) (recur : DTDL → ModelMap → Bool → Except JsErr ModelMap)
    (model : DTDL) (modelMap : ModelMap) (tryExp : Bool) : Except JsErr ModelMap :=
  let toResolve := (getModelDependencies model).filter
      (fun d => !(mapHas modelMap (Dep.toKey d)))
  if toResolve.isEmpty then .ok modelMap
  else
    let resolved : Except JsErr ModelMap :=
      match res toResolve tryExp with
      | .ok m => .ok m
      | .error e => if e.isRest then res toResolve false else .error e
    match resolved with
    | .error e => .error e
    | .ok resolvedMap =>
        runList (fun d m => recur d m tryExp) resolvedMap (mapMerge modelMap resolvedMap)

/-- The private `_expand` method of `PseudoParser` (sdk copy): `expandStep`
tied off with explicit fuel in place of general recursion. -/
def expandOne (res : Resolver) : Nat → DTDL → ModelMap → Bool → Except JsErr ModelMap
  | 0 => fun _ _ _ => .error (.jsError "fuel exhausted")
  | Nat.succ n => expandStep res (expandOne res n)

/-- The loop body of the public `expand` method (sdk copy): for each initial
model in order, throw if it has no `"@id"`, otherwise seed it into the map and
await `_expand` on it. -/
def expandGo (res : Resolver) (fuel : Nat) : List DTDL → ModelMap → Bool → Except JsErr ModelMap
  | [], acc, _ => .ok acc
  | model :: rest, acc, tryExp =>
      match model.id with
      | none => .error (.jsError "model does not contain @id member")
      | some i =>
          match expandOne res fuel model (mapSet acc i model) tryExp with
          | .error e => .error e
          | .ok acc2 => expandGo res fuel rest acc2 tryExp

/-- The public `expand` method of `PseudoParser` (sdk copy,
`psuedoParser.ts`). -/
def expand (res : Resolver) (fuel : Nat) (models : List DTDL) (tryExp : Bool) :
    Except JsErr ModelMap :=
  expandGo res fuel models [] tryExp

/-- The `for ... of resolvedDependenciesMap.values()` loop of the draft
`_expand`: recurse into each resolved model; every sibling receives the same
`localMap`, because a callee's rebinding of its own parameter is invisible to
its caller. Only errors travel back. -/
def p1RunList (recur : DTDL → ModelMap → Except JsErr Unit) :
    ModelMap → ModelMap → Except JsErr Unit
  | [], _ => .ok ()
  | p :: rest, localMap =>
      match recur p.2 localMap with
      | .error e => .error e
      | .ok _ => p1RunList recur rest localMap

/-- The body of the private `_expand` of the earlier draft of `PseudoParser`
kept in the repository (the unnamed source file), with the recursive self-call
abstracted as `recur`: same dependency computation and filter as the sdk copy,
but `resolve` is called without a fallback catch, and the merged map is bound
with `modelMap = \x7b ...modelMap, ...resolvedDependenciesMap \x7d` — a
rebinding of the local variable that never mutates the caller's object. The
method therefore only signals errors; its map updates are invisible to the
caller, which this embedding renders by returning `Unit` and threading the
rebound map only into the recursive calls. -/
def p1ExpandStep (res : Resolver) (recur : DTDL → ModelMap → Except JsErr Unit)
    (model : DTDL) (modelMap : ModelMap) : Except JsErr Unit :=
  let toResolve := (getModelDependencies model).filter
      (fun d => !(mapHas modelMap (Dep.toKey d)))
  if toResolve.isEmpty then .ok ()
  else
    match res toResolve false with
    | .error e => .error e
    | .ok resolvedMap => p1RunList recur resolvedMap (mapMerge modelMap resolvedMap)

/-- The draft `_expand` tied off with explicit fuel. -/
def p1ExpandOne (res : Resolver) : Nat → DTDL → ModelMap → Except JsErr Unit
  | 0 => fun _ _ => .error (.jsError "fuel exhausted")
  | Nat.succ n => p1ExpandStep res (p1ExpandOne res n)

/-- The public `expand` of the draft `PseudoParser`: seed each model under its
`model["@id"]` key (an absent `"@id"` is not checked — the `undefined` key
stringifies to `"undefined"`), call `_expand`, and return the seeded map,
which `_expand` never mutated. -/
def p1Expand (res : Resolver) (fuel : Nat) (models : List DTDL) :
    Except JsErr ModelMap :=
  models.foldlM
    (fun acc model =>
      let acc2 := mapSet acc (model.id.getD "undefined") model
      (p1ExpandOne res fuel model acc2).map (fun _ => acc2))
    []

/-- Lower-casing of a string, character by character (the case folding used by
the addressing convention and by case-normalized DTMI comparison). -/
def strLower (s : String) : String :=
  ⟨s.data.map Char.toLower⟩

/-- Splitting a character list on a separator character; `cur` holds the
current segment, reversed. -/
def splitCharAux (c : Char) : List Char → List Char → List (List Char)
  | [], cur => [cur.reverse]
  | x :: xs, cur =>
      if x == c then cur.reverse :: splitCharAux c xs []
      else splitCharAux c xs (x :: cur)

/-- Splitting a string on a separator character (the behaviour of
`String.splitOn` for a one-character separator, defined structurally). -/
def splitChar (c : Char) (s : String) : List String :=
  (splitCharAux c s.data []).map (fun l => ⟨l⟩)

/-- Decimal reading of a digit string (the behaviour of `String.toNat?`,
defined structurally): `none` as soon as a non-digit appears. -/
def natOfDigits : List Char → Nat → Option Nat
  | [], acc => some acc
  | c :: rest, acc =>
      if c.isDigit then natOfDigits rest (acc * 10 + (c.toNat - 48)) else none

/-- Characters allowed in a DTMI path segment (alphanumerics and underscore;
anything else is one of the disallowed characters of the spec). -/
def validSegChar (c : Char) : Bool :=
  c.isAlphanum || c == '_'

/-- Modelled from the spec: validity of a DTMI (`dtmiConventions` is not part
of this snapshot). The scheme is `dtmi:<path-segments>;<version>` — path
segments colon-separated and nonempty, version a positive integer; a
non-numeric version, an empty segment or a disallowed character makes the
identifier invalid (`InvalidDtmiFormat`). -/
def validDtmi (s : String) : Bool :=
  match splitChar ';' s with
  | [body, ver] =>
      (!(ver == "")
        && (match natOfDigits ver.data 0 with
            | some n => decide (0 < n)
            | none => false))
      && (match splitChar ':' body with
          | scheme :: segs =>
              scheme == "dtmi" && !segs.isEmpty
              && segs.all (fun seg => !(seg == "") && seg.data.all validSegChar)
          | [] => false)
  | _ => false

/-- Joining path segments with `/`. -/
def joinSlash : List String → String
  | [] => ""
  | [s] => s
  | s :: rest => s ++ "/" ++ joinSlash rest

/-- Modelled from the spec: `toPath` of the addressing convention
(`dtmiConventions` is not part of this snapshot) — split the DTMI on `:` and
`;`, lower-case every segment, join the path segments with `/` and append
`-<version>.json`. The fallback arm is unreachable for valid DTMIs, which the
resolver checks before addressing. -/
def toPath (dtmi : String) : String :=
  match splitChar ';' dtmi with
  | [body, ver] =>
      joinSlash ((splitChar ':' body).map strLower) ++ "-" ++ strLower ver ++ ".json"
  | _ => strLower dtmi

/-- Modelled from the spec: `toExpandedPath` — as `toPath` with suffix
`.expanded.json` in place of `.json`. -/
def toExpandedPath (dtmi : String) : String :=
  match splitChar ';' dtmi with
  | [body, ver] =>
      joinSlash ((splitChar ':' body).map strLower) ++ "-" ++ strLower ver ++ ".expanded.json"
  | _ => strLower dtmi

/-- A repository as seen through Addressing + Fetcher: the parsed document
stored at a plain repository-relative path, and the parsed document array
stored at an expanded path. `none` is a target that does not exist, which the
HTTP fetcher surfaces as a `RestError` with status 404. -/
structure Repo where
  plain : String → Option DTDL
  expanded : String → Option (List DTDL)

/-- Seeding of an expanded document array: every entry is inserted under its
own `"@id"`; an entry without one is a `MalformedModel`. -/
def seedExpandedDocs (acc : ModelMap) : List DTDL → Except JsErr ModelMap
  | [] => .ok acc
  | doc :: rest =>
      match doc.id with
      | none => .error (.jsError "MalformedModel")
      | some i => seedExpandedDocs (mapSet acc i doc) rest

/-- Modelled from the spec: `DtmiResolver.resolve` (`dtmiResolver.ts` is not
part of this snapshot). For each requested DTMI: fail `InvalidDtmiFormat` on a
malformed identifier; fetch the expanded path when `tryFromExpanded`, else the
plain path, a missing target being a 404 `RestError`; fail `MalformedModel`
when a fetched document lacks `"@id"`; for a plain fetch, fail
`IdentityMismatch` unless the document's `"@id"` equals the requested DTMI
case-normalized, and key the document by the requested DTMI; for an expanded
fetch, key every document of the array by its own `"@id"`. A non-string
argument (a nested dependency array handed over by the expander) is a
malformed identifier. The spec's parallel fan-out/fan-in is sequentialised
left-to-right, the first failure aborting the call. -/
def specResolveStep (repo : Repo) (tryFromExp : Bool) (acc : ModelMap) (dep : Dep) :
    Except JsErr ModelMap :=
  match dep with
  | .lst _ => .error (.jsError "InvalidDtmiFormat: non-string dtmi")
  | .str d =>
      if !(validDtmi d) then .error (.jsError ("InvalidDtmiFormat: " ++ d))
      else if tryFromExp then
        match repo.expanded (toExpandedPath d) with
        | none => .error (.restError 404)
        | some docs => seedExpandedDocs acc docs
      else
        match repo.plain (toPath d) with
        | none => .error (.restError 404)
        | some doc =>
            match doc.id with
            | none => .error (.jsError "MalformedModel")
            | some i =>
                if strLower i == strLower d then .ok (mapSet acc d doc)
                else .error (.jsError "IdentityMismatch")

/-- The whole resolve call: the per-DTMI step folded over the request batch. -/
def specResolve (repo : Repo) : Resolver := fun dtmis tryFromExp =>
  dtmis.foldlM (specResolveStep repo tryFromExp) []

/-- The `dependencyResolutionType` union of the client. -/
inductive DepMode where
  | disabled
  | enabled
  | tryFromExpanded
deriving DecidableEq, Repr

/-- The first parameter of `getModels`: one DTMI as a bare string, or an array
of DTMIs (the two declared overloads). -/
inductive DtmisArg where
  | one : String → DtmisArg
  | many : List String → DtmisArg

/-- The `getModels` method of `ModelsRepositoryClient`: normalize a bare
string to a one-element array, pick the per-call mode (the option, else the
mode fixed at construction), then dispatch: `disabled` resolves the requested
DTMIs only; `enabled` resolves them and expands the resolved documents (the
source passes no second argument to `expand`, so its `tryFromExpanded`
parameter is `undefined`, i.e. falsy); `tryFromExpanded` resolves with the
expanded flag and, on a `RestError`, merely logs — the TODO in the source —
leaving `modelMap` unassigned, so the method resolves to `undefined`, embedded
as `.ok none`; any other error is rethrown. -/
def getModels (res : Resolver) (fuel : Nat) (dtmis : DtmisArg)
    (optMode : Option DepMode) (clientMode : DepMode) :
    Except JsErr (Option ModelMap) :=
  let ds := match dtmis with
    | .one s => [s]
    | .many l => l
  match optMode.getD clientMode with
  | .disabled => (res (ds.map Dep.str) false).map some
  | .enabled =>
      match res (ds.map Dep.str) false with
      | .error e => .error e
      | .ok baseModelMap =>
          (expand res fuel (baseModelMap.map (fun p => p.2)) false).map some
  | .tryFromExpanded =>
      match res (ds.map Dep.str) true with
      | .ok m => .ok (some m)
      | .error e => if e.isRest then .ok none else .error e

/-! Concrete fixtures used by the theorems: a two-model repository in which
`dtmi:ex:a;1` extends `dtmi:ex:b;1`, plus a parent model whose `extends` array
holds an inline object. -/

/-- DTMI of the extending model. -/
def dtmiA : String := "dtmi:ex:a;1"

/-- DTMI of the extended model. -/
def dtmiB : String := "dtmi:ex:b;1"

/-- Model `dtmi:ex:a;1`, which extends `dtmi:ex:b;1`. -/
def modelA : DTDL := .mk (some dtmiA) none (some (.str dtmiB))

/-- Model `dtmi:ex:b;1`, with no dependencies. -/
def modelB : DTDL := .mk (some dtmiB) none none

/-- A repository holding the plain documents of `modelA` and `modelB` at their
conventional paths, and no expanded documents. -/
def repoAB : Repo where
  plain := fun p =>
    if p == "dtmi/ex/a-1.json" then some modelA
    else if p == "dtmi/ex/b-1.json" then some modelB
    else none
  expanded := fun _ => none

/-- DTMI referenced by the inline `extends` object below. -/
def baseDtmi : String := "dtmi:ex:base;1"

/-- Model stored for `baseDtmi`. -/
def baseModel : DTDL := .mk (some baseDtmi) none none

/-- A parent model whose `extends` is an array holding a single inline object,
and that object extends `baseDtmi`. -/
def inlineParent : DTDL :=
  .mk (some dtmiA) none
    (some (.arr [.obj (.mk (some "dtmi:ex:inner;1") none (some (.str baseDtmi)))]))

/-- A repository holding the plain documents of `inlineParent` and `baseModel`
at their conventional paths. -/
def repoInline : Repo where
  plain := fun p =>
    if p == "dtmi/ex/a-1.json" then some inlineParent
    else if p == "dtmi/ex/base-1.json" then some baseModel
    else none
  expanded := fun _ => none

/-- C1. The claim says `getModels` in `tryFromExpanded` mode falls back to the
`enabled` path when the expanded document fetch fails with NotFound and
returns the same model map as `enabled` mode — in particular a map, not
`undefined`. The code does not: the catch block of the `tryFromExpanded`
branch only logs (a TODO marks the gap), `modelMap` is never assigned, and the
method resolves to `undefined` (`.ok none`), while the same call in `enabled`
mode returns the two-model closure. -/
theorem c1_tryFromExpanded_returns_undefined :
    getModels (specResolve repoAB) 2 (.many [dtmiA]) none .tryFromExpanded = .ok none
    ∧ getModels (specResolve repoAB) 2 (.many [dtmiA]) none .enabled =
        .ok (some [(dtmiA, modelA), (dtmiB, modelB)]) :=
  ⟨rfl, rfl⟩

/-- C2. The closure invariant fails on the draft copy of `PseudoParser` kept
in the repository: `dtmi:ex:b;1` is a dependency of `modelA` and its document
is resolvable, yet the draft `expand([modelA])` returns successfully with a
map lacking that key, because `_expand` rebinds its local `modelMap` instead
of mutating the caller's object. The sdk copy of the class (which assigns
`modelMap[key] = ...` in place) returns the full closure on the same input. -/
theorem c2_draft_expand_partial_map :
    p1Expand (specResolve repoAB) 2 [modelA] = .ok [(dtmiA, modelA)]
    ∧ (getModelDependencies modelA).map Dep.toKey = [dtmiB]
    ∧ mapHas [(dtmiA, modelA)] dtmiB = false
    ∧ expand (specResolve repoAB) 2 [modelA] false =
        .ok [(dtmiA, modelA), (dtmiB, modelB)] :=
  ⟨rfl, rfl, rfl, rfl⟩

/-- C3, counterexample. The claim says every failure during expansion
propagates unchanged except that only the Client façade may intercept the
expanded-path NotFound. In fact the Expander itself intercepts it: with the
expanded fetch of the dependency failing with a 404 `RestError`, `_expand`
catches the error, retries the batch with `tryFromExpanded = false`, and the
expand call succeeds with the full closure instead of propagating the
failure. -/
theorem c3_counterexample_expander_intercepts :
    specResolve repoAB [Dep.str dtmiB] true = .error (.restError 404)
    ∧ expand (specResolve repoAB) 2 [modelA] true =
        .ok [(dtmiA, modelA), (dtmiB, modelB)] :=
  ⟨rfl, rfl⟩

/-- C4. The claim says an inline object element of `extends` contributes its
recursively computed dependency set as individual edges. The code instead
pushes the recursively computed list itself (`dependencies.push(...)` without
a spread), so the dependency array of `inlineParent` holds one nested array —
not the string edge `baseDtmi` — and an expand over a repository that does
contain the base document aborts when the resolver receives the non-string
value, instead of resolving the base model into the map. -/
theorem c4_inline_extends_not_flattened :
    getModelDependencies inlineParent = [Dep.lst [Dep.str baseDtmi]]
    ∧ expand (specResolve repoInline) 2 [inlineParent] false =
        .error (.jsError "InvalidDtmiFormat: non-string dtmi") :=
  ⟨rfl, rfl⟩

/-- C9. A bare-string `dtmis` argument is normalized to a one-element array
before the mode dispatch, so the two `getModels` overloads agree on every
resolver, fuel, DTMI and option value. -/
theorem c9_string_arg_normalized (res : Resolver) (fuel : Nat) (d : String)
    (optMode : Option DepMode) (clientMode : DepMode) :
    getModels res fuel (.one d) optMode clientMode =
      getModels res fuel (.many [d]) optMode clientMode :=
  rfl

/-- Helper for C10: seeded expansion fails whenever some model of the
remaining list lacks an `"@id"` — either an earlier step already failed, or
the loop reaches the id-less model and throws. -/
theorem expandGo_error_of_missing_id (res : Resolver) (fuel : Nat) (t : Bool) :
    ∀ (models : List DTDL) (acc : ModelMap), (∃ m ∈ models, m.id = none) →
      ∃ e, expandGo res fuel models acc t = .error e := by
  intro models
  induction models with
  | nil =>
      intro acc h
      rcases h with ⟨m, hm, _⟩
      cases hm
  | cons m rest ih =>
      intro acc h
      match hid : m.id with
      | none =>
          exact ⟨.jsError "model does not contain @id member", by simp [expandGo, hid]⟩
      | some i =>
          rcases h with ⟨m2, hm2, hnone⟩
          rcases List.mem_cons.mp hm2 with heq | hmem
          · subst heq
            rw [hid] at hnone
            cases hnone
          · match hexp : expandOne res fuel m (mapSet acc i m) t with
            | .error e => exact ⟨e, by simp [expandGo, hid, hexp]⟩
            | .ok acc2 =>
                rcases ih acc2 ⟨m2, hmem, hnone⟩ with ⟨e, he⟩
                exact ⟨e, by simp [expandGo, hid, hexp, he]⟩

/-- C10. If any initial model lacks an `"@id"` member, `expand` throws — the
call rejects with some error and no map is returned — rather than silently
skipping the model. -/
theorem c10_missing_id_rejects (res : Resolver) (fuel : Nat) (t : Bool)
    (models : List DTDL) (h : ∃ m ∈ models, m.id = none) :
    ∃ e, expand res fuel models t = .error e :=
  expandGo_error_of_missing_id res fuel t models [] h

/-- Witness for C10: a one-model list whose model has no `"@id"` makes
`expand` reject. -/
theorem c10_missing_id_rejects_witness :
    (∃ m ∈ [DTDL.mk none none none], m.id = none)
    ∧ ∃ e, expand (specResolve repoAB) 2 [DTDL.mk none none none] false = .error e :=
  ⟨⟨DTDL.mk none none none, List.mem_singleton.mpr rfl, rfl⟩,
    c10_missing_id_rejects (specResolve repoAB) 2 false [DTDL.mk none none none]
      ⟨DTDL.mk none none none, List.mem_singleton.mpr rfl, rfl⟩⟩

/-- The extending half of a two-model cycle: model `a` extends `b`. -/
def cycModelA (a b : String) : DTDL := .mk (some a) none (some (.str b))

/-- The other half of the cycle: model `b` extends `a`. -/
def cycModelB (a b : String) : DTDL := .mk (some b) none (some (.str a))

/-- A resolver serving exactly the two models of the cycle. -/
def cycResolver (a b : String) : Resolver := fun deps _ =>
  deps.foldlM
    (fun acc dep =>
      match dep with
      | .lst _ => .error (.jsError "InvalidDtmiFormat: non-string dtmi")
      | .str d =>
          if d == a then .ok (mapSet acc a (cycModelA a b))
          else if d == b then .ok (mapSet acc b (cycModelB a b))
          else .error (.restError 404))
    []

/-- C5. On the cyclic graph in which model `a` extends `b` and model `b`
extends `a`, `expand([A])` terminates for every fuel of at least two — the
second visit finds both keys already in the map, the sole stopping condition
of `_expand` — and returns the map holding `a` and `b` exactly once each. -/
theorem c5_cycle_expand_terminates (a b : String) (n : Nat) (hab : a ≠ b) :
    expand (cycResolver a b) (n + 2) [cycModelA a b] false =
      .ok [(a, cycModelA a b), (b, cycModelB a b)] := by
  have hab2 : (a == b) = false := beq_eq_false_iff_ne.mpr hab
  have hba2 : (b == a) = false := beq_eq_false_iff_ne.mpr (Ne.symm hab)
  show expand (cycResolver a b) (Nat.succ (Nat.succ n)) [cycModelA a b] false = _
  simp [expand, expandGo, expandOne, expandStep, cycResolver, cycModelA, cycModelB,
    DTDL.id, getModelDependencies, extDeps, contentDeps, dedupDeps, Dep.toKey,
    mapSet, mapHas, mapMerge, runList, hab2, hba2, hab, Ne.symm hab]

/-- Witness for C5: the cycle on `dtmi:ex:cyca;1` and `dtmi:ex:cycb;1`. -/
theorem c5_cycle_expand_terminates_witness :
    expand (cycResolver "dtmi:ex:cyca;1" "dtmi:ex:cycb;1") (0 + 2)
        [cycModelA "dtmi:ex:cyca;1" "dtmi:ex:cycb;1"] false =
      .ok [("dtmi:ex:cyca;1", cycModelA "dtmi:ex:cyca;1" "dtmi:ex:cycb;1"),
           ("dtmi:ex:cycb;1", cycModelB "dtmi:ex:cyca;1" "dtmi:ex:cycb;1")] :=
  c5_cycle_expand_terminates "dtmi:ex:cyca;1" "dtmi:ex:cycb;1" 0 (by decide)

/-- C3, amended. The Expander's actual propagation policy, for any resolution
batch it needs (the filtered dependency list is nonempty) whose first attempt
fails: a non-`RestError` failure propagates unchanged; a `RestError` is
intercepted by the Expander itself, which retries the batch with
`tryFromExpanded = false` — a failing retry aborts the call with the retry's
error, and a succeeding retry continues the expansion on the merged map. -/
theorem c3_amended_expander_policy (res : Resolver) (n : Nat) (model : DTDL)
    (modelMap : ModelMap) (t : Bool) (e : JsErr)
    (hne : ((getModelDependencies model).filter
        (fun d => !(mapHas modelMap (Dep.toKey d)))).isEmpty = false)
    (hfirst : res ((getModelDependencies model).filter
        (fun d => !(mapHas modelMap (Dep.toKey d)))) t = .error e) :
    (e.isRest = false → expandOne res (n + 1) model modelMap t = .error e)
    ∧ (∀ e2, e.isRest = true →
        res ((getModelDependencies model).filter
          (fun d => !(mapHas modelMap (Dep.toKey d)))) false = .error e2 →
        expandOne res (n + 1) model modelMap t = .error e2)
    ∧ (∀ m2, e.isRest = true →
        res ((getModelDependencies model).filter
          (fun d => !(mapHas modelMap (Dep.toKey d)))) false = .ok m2 →
        expandOne res (n + 1) model modelMap t =
          runList (fun d mm => expandOne res n d mm t) m2 (mapMerge modelMap m2)) := by
  refine ⟨?_, ?_, ?_⟩
  · intro hrest
    simp [expandOne, expandStep, hne, hfirst, hrest]
  · intro e2 hrest hretry
    simp [expandOne, expandStep, hne, hfirst, hrest, hretry]
  · intro m2 hrest hretry
    simp [expandOne, expandStep, hne, hfirst, hrest, hretry]

/-- Witness for C3's amended theorem: on the concrete two-model repository the
expanded fetch of the dependency batch fails with a 404 `RestError`, the
retry succeeds, and `_expand` continues on the merged map. -/
theorem c3_amended_expander_policy_witness :
    expandOne (specResolve repoAB) 2 modelA [(dtmiA, modelA)] true =
      runList (fun d mm => expandOne (specResolve repoAB) 1 d mm true)
        [(dtmiB, modelB)] (mapMerge [(dtmiA, modelA)] [(dtmiB, modelB)]) :=
  (c3_amended_expander_policy (specResolve repoAB) 1 modelA [(dtmiA, modelA)] true
      (.restError 404) rfl rfl).2.2 [(dtmiB, modelB)] rfl rfl

/-- C6, counterexample. The input list `[modelA, modelB]` already contains its
dependency closure (the only edge, `dtmi:ex:a;1 → dtmi:ex:b;1`, stays inside
the list), yet `expand` consults the resolver: the loop seeds and expands
`modelA` before `modelB` has been seeded, so the edge to `dtmi:ex:b;1` is
resolved. With a resolver that rejects every call, the expand call therefore
fails instead of returning the input map untouched — refuting "no additional
resolver fetches". (With the real repository the same call does return the
two input models, as `c2_draft_expand_partial_map` and the last conjunct here
show; only the no-fetch half of the claim fails.) -/
theorem c6_counterexample_fetch_on_closed_list :
    (getModelDependencies modelA).map Dep.toKey = [dtmiB]
    ∧ (getModelDependencies modelB).map Dep.toKey = []
    ∧ expand (fun _ _ => .error (.jsError "resolver invoked")) 2 [modelA, modelB] false =
        .error (.jsError "resolver invoked")
    ∧ expand (specResolve repoAB) 2 [modelA, modelB] false =
        .ok [(dtmiA, modelA), (dtmiB, modelB)] :=
  ⟨rfl, rfl, rfl, rfl⟩

/-- Membership of a string in a list, as a boolean. -/
def strIn (l : List String) (k : String) : Bool :=
  l.any (fun s => s == k)

/-- The dependency keys of a model: its dependency entries coerced to
property keys. -/
def depKeys (m : DTDL) : List String :=
  (getModelDependencies m).map Dep.toKey

/-- Dependency-ordered model lists: every model has an `"@id"` and every
dependency key of a model is the `"@id"` of the model itself or of an earlier
model (`seen` accumulates the ids already passed). -/
def topoOrdered : List String → List DTDL → Bool
  | _, [] => true
  | seen, m :: rest =>
      match m.id with
      | none => false
      | some i =>
          (depKeys m).all (fun k => k == i || strIn seen k)
            && topoOrdered (i :: seen) rest

/-- The map produced by only seeding the initial models, in order, each under
its own `"@id"`. -/
def seedMap : List DTDL → ModelMap → ModelMap
  | [], acc => acc
  | m :: rest, acc => seedMap rest (mapSet acc (m.id.getD "undefined") m)

/-- Overwriting an existing key in place leaves the key set unchanged. -/
theorem mapHas_mapOverwrite (k k2 : String) (v : DTDL) (m : ModelMap) :
    mapHas (m.map (fun p => if p.1 == k then (k, v) else p)) k2 = mapHas m k2 := by
  induction m with
  | nil => rfl
  | cons p m ih =>
      simp only [List.map_cons, mapHas, List.any_cons, List.any_map, beq_iff_eq] at *
      by_cases hp : p.1 = k
      · simp [hp, Function.comp, ih]
      · simp [hp, Function.comp, ih]

/-- Key membership after a property assignment: the new key, plus the old
ones. -/
theorem mapHas_mapSet (m : ModelMap) (k k2 : String) (v : DTDL) :
    mapHas (mapSet m k v) k2 = (mapHas m k2 || (k == k2)) := by
  by_cases hk : mapHas m k
  · rw [mapSet, if_pos hk, mapHas_mapOverwrite]
    by_cases hkk : (k == k2)
    · have hk2 : k = k2 := by simpa using hkk
      subst hk2
      simp [hk]
    · simp [hkk]
  · rw [mapSet, if_neg (by simp [hk])]
    simp [mapHas, List.any_append]

/-- A model whose dependency keys are all present in the map makes `_expand` a
no-op: the filter empties the batch and the map is returned unchanged. -/
theorem expandOne_noop (res : Resolver) (n : Nat) (m : DTDL) (map : ModelMap) (t : Bool)
    (h : ∀ k ∈ depKeys m, mapHas map k = true) :
    expandOne res (n + 1) m map t = .ok map := by
  have hfil : (getModelDependencies m).filter (fun d => !(mapHas map (Dep.toKey d))) = [] := by
    rw [List.filter_eq_nil_iff]
    intro d hd
    simp [h (Dep.toKey d) (List.mem_map_of_mem _ hd)]
  simp [expandOne, expandStep, hfil]

/-- Helper for C6's amended claim: over a dependency-ordered suffix, seeded
expansion only seeds — every `_expand` is a no-op — whatever the resolver. -/
theorem expandGo_topo (res : Resolver) (n : Nat) (t : Bool) :
    ∀ (models : List DTDL) (seen : List String) (acc : ModelMap),
      topoOrdered seen models = true →
      (∀ s, strIn seen s = true → mapHas acc s = true) →
      expandGo res (n + 1) models acc t = .ok (seedMap models acc) := by
  intro models
  induction models with
  | nil =>
      intro seen acc _ _
      simp [expandGo, seedMap]
  | cons m rest ih =>
      intro seen acc htopo hsub
      match hid : m.id with
      | none => simp [topoOrdered, hid] at htopo
      | some i =>
          simp only [topoOrdered, hid, Bool.and_eq_true] at htopo
          obtain ⟨hdeps, htopo2⟩ := htopo
          have hget : ∀ s, (s == i) = true ∨ strIn seen s = true →
              mapHas (mapSet acc i m) s = true := by
            intro s hs
            rw [mapHas_mapSet]
            rcases hs with hs | hs
            · have : s = i := by simpa using hs
              subst this
              simp
            · simp [hsub s hs]
          have hstep : expandOne res (n + 1) m (mapSet acc i m) t = .ok (mapSet acc i m) := by
            apply expandOne_noop
            intro k hk
            have hkk := List.all_eq_true.mp hdeps k hk
            simp only [Bool.or_eq_true] at hkk
            rcases hkk with h1 | h2
            · exact hget k (Or.inl h1)
            · exact hget k (Or.inr h2)
          simp only [expandGo, hid, hstep]
          have hsub2 : ∀ s, strIn (i :: seen) s = true → mapHas (mapSet acc i m) s = true := by
            intro s hs
            simp only [strIn, List.any_cons, Bool.or_eq_true] at hs
            rcases hs with h1 | h2
            · have : i = s := by simpa using h1
              subst this
              exact hget i (Or.inl (by simp))
            · exact hget s (Or.inr h2)
          simp only [seedMap, hid, Option.getD]
          exact ih (i :: seen) (mapSet acc i m) htopo2 hsub2

/-- C6, amended. For every model list that is dependency-ordered — every
model carries an `"@id"` and each model's dependency keys are ids of itself or
of earlier models — `expand` succeeds and returns exactly the map of the input
models seeded in order, for every resolver and either flag; since the result
is resolver-independent (an always-failing resolver included), no resolver
fetch is performed. -/
theorem c6_amended_ordered_no_fetch (res : Resolver) (n : Nat) (t : Bool)
    (models : List DTDL) (h : topoOrdered [] models = true) :
    expand res (n + 1) models t = .ok (seedMap models []) :=
  expandGo_topo res n t models [] [] h (by intro s hs; simp [strIn] at hs)

/-- Witness for C6's amended theorem: the dependency-ordered list
`[modelB, modelA]` expands to its own seeding even under a resolver that
rejects every call. -/
theorem c6_amended_ordered_no_fetch_witness :
    topoOrdered [] [modelB, modelA] = true
    ∧ expand (fun _ _ => .error (.jsError "resolver invoked")) (0 + 1)
        [modelB, modelA] false = .ok (seedMap [modelB, modelA] []) :=
  ⟨rfl, c6_amended_ordered_no_fetch (fun _ _ => .error (.jsError "resolver invoked"))
    0 false [modelB, modelA] rfl⟩

/-- Helper for C7: when every requested DTMI is valid and its plain document is
present with a matching id, the resolve fold appends one entry per request, in
order. -/
theorem specResolve_fold_present (repo : Repo) (docOf : String → DTDL) :
    ∀ (dtmis : List String) (acc : ModelMap),
      dtmis.Nodup →
      (∀ d ∈ dtmis, validDtmi d = true
        ∧ repo.plain (toPath d) = some (docOf d)
        ∧ ∃ i, (docOf d).id = some i ∧ strLower i = strLower d) →
      (∀ d ∈ dtmis, mapHas acc d = false) →
      (dtmis.map Dep.str).foldlM (specResolveStep repo false) acc =
        .ok (acc ++ dtmis.map (fun d => (d, docOf d))) := by
  intro dtmis
  induction dtmis with
  | nil =>
      intro acc _ _ _
      simp only [List.map_nil, List.foldlM_nil, List.append_nil]
      rfl
  | cons d rest ih =>
      intro acc hnd h hfree
      obtain ⟨hval, hplain, i, hid, hlow⟩ := h d (List.mem_cons_self d rest)
      have hstep : specResolveStep repo false acc (Dep.str d) = .ok (mapSet acc d (docOf d)) := by
        simp [specResolveStep, hval, hplain, hid, hlow]
      have hset : mapSet acc d (docOf d) = acc ++ [(d, docOf d)] := by
        rw [mapSet, if_neg (by simp [hfree d (List.mem_cons_self d rest)])]
      have hfree2 : ∀ d2 ∈ rest, mapHas (acc ++ [(d, docOf d)]) d2 = false := by
        intro d2 hd2
        have hne : d ≠ d2 := by
          intro hdd
          subst hdd
          exact (List.nodup_cons.mp hnd).1 hd2
        rw [← hset, mapHas_mapSet]
        simp [hfree d2 (List.mem_cons_of_mem d hd2), beq_eq_false_iff_ne.mpr hne]
      have := ih (acc ++ [(d, docOf d)]) (List.nodup_cons.mp hnd).2
        (fun d2 hd2 => h d2 (List.mem_cons_of_mem d hd2)) hfree2
      simp only [List.map_cons, List.foldlM_cons, hstep, hset]
      simpa using this

/-- Helper for C7: when every requested DTMI is valid and either absent or
present with a matching id, and at least one is absent, the resolve fold stops
at the first absent document with a 404. -/
theorem specResolve_fold_missing (repo : Repo) :
    ∀ (dtmis : List String) (acc : ModelMap),
      (∀ d ∈ dtmis, validDtmi d = true
        ∧ (repo.plain (toPath d) = none
           ∨ ∃ doc, repo.plain (toPath d) = some doc
               ∧ ∃ i, doc.id = some i ∧ strLower i = strLower d)) →
      (∃ d ∈ dtmis, repo.plain (toPath d) = none) →
      (dtmis.map Dep.str).foldlM (specResolveStep repo false) acc =
        .error (.restError 404) := by
  intro dtmis
  induction dtmis with
  | nil =>
      intro acc _ hmiss
      rcases hmiss with ⟨d, hd, _⟩
      cases hd
  | cons d rest ih =>
      intro acc h hmiss
      obtain ⟨hval, hdisj⟩ := h d (List.mem_cons_self d rest)
      match hplain : repo.plain (toPath d) with
      | none =>
          have hstep : specResolveStep repo false acc (Dep.str d) =
              .error (.restError 404) := by
            simp [specResolveStep, hval, hplain]
          simp only [List.map_cons, List.foldlM_cons, hstep]
          rfl
      | some doc =>
          rcases hdisj with hnone | ⟨doc2, hsome2, i, hid, hlow⟩
          · rw [hplain] at hnone
            cases hnone
          · rw [hplain] at hsome2
            have hdoc : doc = doc2 := Option.some.inj hsome2
            subst hdoc
            have hstep : specResolveStep repo false acc (Dep.str d) =
                .ok (mapSet acc d doc) := by
              simp [specResolveStep, hval, hplain, hid, hlow]
            have hmiss2 : ∃ d2 ∈ rest, repo.plain (toPath d2) = none := by
              rcases hmiss with ⟨d2, hd2, hn2⟩
              rcases List.mem_cons.mp hd2 with heq | hmem
              · subst heq
                rw [hplain] at hn2
                cases hn2
              · exact ⟨d2, hmem, hn2⟩
            simp only [List.map_cons, List.foldlM_cons, hstep]
            simpa using ih (mapSet acc d doc)
              (fun d2 hd2 => h d2 (List.mem_cons_of_mem d hd2)) hmiss2

/-- C7. In `disabled` mode `getModels` only resolves — no expansion: when
every requested DTMI is valid, stored under its conventional path and
carries a matching `"@id"`, the returned map holds exactly the requested
models, one entry per request in request order; and when some requested
document is absent from the repository, the call fails with the 404 NotFound
`RestError` and returns no map. -/
theorem c7_disabled_mode_exact_or_notfound :
    (∀ (repo : Repo) (fuel : Nat) (dtmis : List String) (docOf : String → DTDL),
      dtmis.Nodup →
      (∀ d ∈ dtmis, validDtmi d = true
        ∧ repo.plain (toPath d) = some (docOf d)
        ∧ ∃ i, (docOf d).id = some i ∧ strLower i = strLower d) →
      getModels (specResolve repo) fuel (.many dtmis) none .disabled =
        .ok (some (dtmis.map (fun d => (d, docOf d)))))
    ∧ (∀ (repo : Repo) (fuel : Nat) (dtmis : List String),
      (∀ d ∈ dtmis, validDtmi d = true
        ∧ (repo.plain (toPath d) = none
           ∨ ∃ doc, repo.plain (toPath d) = some doc
               ∧ ∃ i, doc.id = some i ∧ strLower i = strLower d)) →
      (∃ d ∈ dtmis, repo.plain (toPath d) = none) →
      getModels (specResolve repo) fuel (.many dtmis) none .disabled =
        .error (.restError 404)) := by
  constructor
  · intro repo fuel dtmis docOf hnd h
    have := specResolve_fold_present repo docOf dtmis [] hnd h (by intro d _; rfl)
    simp [getModels, specResolve, this, Except.map]
  · intro repo fuel dtmis h hmiss
    have := specResolve_fold_missing repo dtmis [] h hmiss
    simp [getModels, specResolve, this, Except.map]

/-- Witness for C7: both requested models of the two-model repository are
returned in `disabled` mode, and requesting an absent DTMI in `disabled` mode
rejects with the 404 NotFound error. -/
theorem c7_disabled_mode_exact_or_notfound_witness :
    getModels (specResolve repoAB) 2 (.many [dtmiA, dtmiB]) none .disabled =
      .ok (some [(dtmiA, modelA), (dtmiB, modelB)])
    ∧ getModels (specResolve repoAB) 2 (.many ["dtmi:ex:miss;1"]) none .disabled =
        .error (.restError 404) := by
  constructor
  · have h := c7_disabled_mode_exact_or_notfound.1 repoAB 2 [dtmiA, dtmiB]
      (fun d => if d == dtmiA then modelA else modelB)
      (by decide)
      (by
        intro d hd
        rcases List.mem_cons.mp hd with heq | hd2
        · subst heq
          exact ⟨rfl, rfl, dtmiA, rfl, rfl⟩
        · rcases List.mem_singleton.mp hd2 with heq2
          subst heq2
          exact ⟨rfl, rfl, dtmiB, rfl, rfl⟩)
    simpa using h
  · exact c7_disabled_mode_exact_or_notfound.2 repoAB 2 ["dtmi:ex:miss;1"]
      (by
        intro d hd
        rcases List.mem_singleton.mp hd with heq
        subst heq
        exact ⟨rfl, Or.inl rfl⟩)
      ⟨"dtmi:ex:miss;1", List.mem_singleton.mpr rfl, rfl⟩

/-- Lower-casing never produces an upper-case character. -/
theorem toLower_not_upper (c : Char) : (Char.toLower c).isUpper = false := by
  simp only [Char.toLower, Char.isUpper]
  split
  · rename_i h
    have h2 : c.toNat ≤ 90 := h.2
    have hv : (c.toNat + 32).isValidChar := Or.inl (by omega)
    rw [Char.ofNat, dif_pos hv]
    simp only [Char.ofNatAux, UInt32.le_def, BitVec.le_def, Bool.and_eq_false_iff,
      decide_eq_false_iff_not]
    simp only [BitVec.ofNatLt, UInt32.toBitVec]
    right
    simp [BitVec.le_def]
    omega
  · rename_i h
    simp only [Char.toNat, UInt32.toNat] at h
    simp only [UInt32.le_def, BitVec.le_def, Bool.and_eq_false_iff, decide_eq_false_iff_not]
    have e65 : ((65 : UInt32).toBitVec).toNat = 65 := rfl
    have e90 : ((90 : UInt32).toBitVec).toNat = 90 := rfl
    rw [e65, e90]
    omega

/-- A string is lower-case when none of its characters is upper-case. -/
def strIsLower (s : String) : Bool :=
  s.data.all (fun c => !c.isUpper)

/-- The characters of a concatenation. -/
theorem strData_append (a b : String) : (a ++ b).data = a.data ++ b.data := by
  cases a
  cases b
  rfl

/-- Lower-caseness distributes over concatenation. -/
theorem strIsLower_append (a b : String) :
    strIsLower (a ++ b) = (strIsLower a && strIsLower b) := by
  simp [strIsLower, strData_append, List.all_append]

/-- The case folding of any string is lower-case. -/
theorem strIsLower_strLower (s : String) : strIsLower (strLower s) = true := by
  simp only [strIsLower, strLower, List.all_map, List.all_eq_true]
  intro c _
  simp [Function.comp, toLower_not_upper]

/-- Joining lower-case segments with `/` stays lower-case. -/
theorem strIsLower_joinSlash :
    ∀ (l : List String), (∀ s ∈ l, strIsLower s = true) → strIsLower (joinSlash l) = true := by
  intro l
  induction l with
  | nil =>
      intro _
      rfl
  | cons s rest ih =>
      intro h
      match rest with
      | [] => exact h s (List.mem_singleton.mpr rfl)
      | s2 :: rest2 =>
          rw [show joinSlash (s :: s2 :: rest2) = s ++ "/" ++ joinSlash (s2 :: rest2) from rfl,
            strIsLower_append, strIsLower_append]
          have h1 := h s (List.mem_cons_self s _)
          have h2 : strIsLower (joinSlash (s2 :: rest2)) = true :=
            ih (fun x hx => h x (List.mem_cons_of_mem s hx))
          have hslash : strIsLower "/" = true := rfl
          simp [h1, h2, hslash]

/-- C8. The addressing function: on the spec's worked example it produces
`dtmi/com/example/thermostat-1.json`; for every valid DTMI the produced path
is lower-case; and it is a pure function, so repeated calls trivially yield
the same path. -/
theorem c8_toPath_lowercase_deterministic :
    toPath "dtmi:com:example:Thermostat;1" = "dtmi/com/example/thermostat-1.json"
    ∧ (∀ d : String, validDtmi d = true → strIsLower (toPath d) = true)
    ∧ (∀ d : String, toPath d = toPath d) := by
  refine ⟨rfl, ?_, fun d => rfl⟩
  intro d _
  rw [toPath]
  match splitChar ';' d with
  | [] => exact strIsLower_strLower d
  | [body] => exact strIsLower_strLower d
  | [body, ver] =>
      rw [strIsLower_append, strIsLower_append, strIsLower_append]
      have hjoin : strIsLower (joinSlash ((splitChar ':' body).map strLower)) = true := by
        apply strIsLower_joinSlash
        intro s hs
        rcases List.mem_map.mp hs with ⟨x, _, hx⟩
        subst hx
        exact strIsLower_strLower x
      have hdash : strIsLower "-" = true := rfl
      have hjson : strIsLower ".json" = true := rfl
      simp [hjoin, strIsLower_strLower, hdash, hjson]
  | body :: ver :: x :: rest => exact strIsLower_strLower d

/-- Witness for C8: the worked example is a valid DTMI and its path is
lower-case. -/
theorem c8_toPath_lowercase_deterministic_witness :
    validDtmi "dtmi:com:example:Thermostat;1" = true
    ∧ strIsLower (toPath "dtmi:com:example:Thermostat;1") = true :=
  ⟨rfl, c8_toPath_lowercase_deterministic.2.1 "dtmi:com:example:Thermostat;1" rfl⟩
